import Mathlib

/-!
Verification of the zone-definition DSL evaluator (`ZonesHandler` in
`src/utils/zones_handling.py`).

The evaluator parses a multi-line source string: each line is either blank /
comment-only, or an assignment `name = expression`, where the expression is a
polygon literal `[(x1,y1),...]`, a circle literal `(cx,cy,r)`, or a binary set
operation `left OP right` with `OP` one of `U I - ^`.  The handler keeps an
insertion-ordered name-to-shape table and serves geometric queries against it.

The embedding below follows the Python source line by line.  Geometry that the
source delegates to the shapely/GEOS library (polygon validity, emptiness of a
set-operation result) is abstracted into an explicit oracle record `Geom`, as
the code depends only on the boolean answers of those two calls; the geometric
queries themselves (`covers`, `area`, `length`, `bounds`, the circle
polygonization produced by `buffer`) are modelled directly from shapely's
documented semantics where a claim needs them.

Numbers are embedded as exact rationals (`ℚ`); the radius-sign test is
implemented on the numerator (provably equivalent to `r ≤ 0`, see
`qNonpos_iff`) so that the whole construction pass evaluates inside the kernel.
-/

/-! ## Low-level text processing (CPython string semantics) -/

/-- Whitespace characters removed by CPython `str.strip()` (ASCII range). -/
def isPySpace (c : Char) : Bool :=
  c == ' ' || c == '\t' || c == '\n' || c == '\r' || c == '\x0b' || c == '\x0c'

/-- Models CPython `str.strip()`: drop leading and trailing whitespace. -/
def pyStripL (cs : List Char) : List Char :=
  ((cs.dropWhile isPySpace).reverse.dropWhile isPySpace).reverse

/-- Worker for `splitLinesPy`; splits at `\r\n`, `\r` or `\n`, with no empty
final line when the text ends in a terminator (CPython `str.splitlines`). -/
def splitGo (cur : List Char) : List Char → List (List Char)
  | [] => [cur.reverse]
  | '\r' :: '\n' :: rest => cur.reverse :: (if rest.isEmpty then [] else splitGo [] rest)
  | '\r' :: rest => cur.reverse :: (if rest.isEmpty then [] else splitGo [] rest)
  | '\n' :: rest => cur.reverse :: (if rest.isEmpty then [] else splitGo [] rest)
  | c :: rest => splitGo (c :: cur) rest

/-- Models CPython `str.splitlines()` for the common line terminators. -/
def splitLinesPy (cs : List Char) : List (List Char) :=
  if cs.isEmpty then [] else splitGo [] cs

/-- Models `raw.split('#', 1)[0]`: everything before the first `#`. -/
def stripComment (cs : List Char) : List Char :=
  cs.takeWhile (fun c => c != '#')

/-- One line after comment stripping and whitespace stripping, exactly as in
`line = raw.split('#', 1)[0].strip()`. -/
def lineStrip (raw : List Char) : List Char :=
  pyStripL (stripComment raw)

/-- Word character of the regex class `\w` (ASCII letters, digits, `_`). -/
def wordChar (c : Char) : Bool :=
  c.isAlpha || c.isDigit || c == '_'

/-- Models the anchored regex `^(\w+)\s*=\s*(.+)$` applied to an already
stripped line: the match is deterministic because `=` and whitespace are not
word characters.  Returns the name group and the expression group. -/
def assignMatch (cs : List Char) : Option (List Char × List Char) :=
  let w := cs.takeWhile wordChar
  if w.isEmpty then none
  else
    match (cs.drop w.length).dropWhile isPySpace with
    | '=' :: rest =>
      let expr := rest.dropWhile isPySpace
      if expr.isEmpty then none else some (w, expr)
    | _ => none

/-- Operator characters of the regex class `[UI\-\^]`. -/
def opChar (c : Char) : Bool :=
  c == 'U' || c == 'I' || c == '-' || c == '^'

/-- Attempt of the regex `^(\w+)\s*([UI\-\^])\s*(\w+)$` with the first group
bound to the first `k` characters (the caller guarantees they are word
characters). -/
def tryOpSplit (cs : List Char) (k : ℕ) : Option (List Char × Char × List Char) :=
  match (cs.drop k).dropWhile isPySpace with
  | c :: rest =>
    if opChar c then
      let r := rest.dropWhile isPySpace
      if r.isEmpty then none
      else if r.all wordChar then some (cs.take k, c, r) else none
    else none
  | [] => none

/-- Backtracking search over the length of the greedy first group `\w+`, from
longest to shortest, as the regex engine does. -/
def opSearch (cs : List Char) : ℕ → Option (List Char × Char × List Char)
  | 0 => none
  | k + 1 =>
    match tryOpSplit cs (k + 1) with
    | some res => some res
    | none => opSearch cs k

/-- Models the anchored regex `^(\w+)\s*([UI\-\^])\s*(\w+)$` (`op_re`). -/
def opMatch (cs : List Char) : Option (List Char × Char × List Char) :=
  opSearch cs (cs.takeWhile wordChar).length

/-! ## Python literal values and `ast.literal_eval` -/

/-- Python literal values that can appear in a zone expression: numbers,
strings, lists and tuples. -/
inductive PyLit where
  | num (q : ℚ)
  | str (s : List Char)
  | list (xs : List PyLit)
  | tuple (xs : List PyLit)

/-- Whitespace inside a literal expression (a line never contains `\n`). -/
def skipWsL (cs : List Char) : List Char :=
  cs.dropWhile (fun c => c == ' ' || c == '\t')

/-- Value of a string of decimal digits. -/
def digitsVal (ds : List Char) : ℕ :=
  ds.foldl (fun a c => 10 * a + (c.toNat - 48)) 0

/-- Rational value of a (possibly negated, possibly decimal-point) numeric
literal with integer part `ip` and fractional part `fp`. -/
def pNumVal (neg : Bool) (ip fp : List Char) : ℚ :=
  if fp.isEmpty then ((if neg then -(digitsVal ip : ℤ) else (digitsVal ip : ℤ) : ℤ) : ℚ)
  else (if neg then -1 else 1) * ((digitsVal ip : ℚ) + (digitsVal fp : ℚ) / (10 : ℚ) ^ fp.length)

/-- Parse a numeric literal (optional minus sign, digits, optional decimal
point) at the head of the input. -/
def pNumTok (cs : List Char) : Option (PyLit × List Char) :=
  let neg := match cs with | '-' :: _ => true | _ => false
  let cs1 := match cs with | '-' :: r => r | _ => cs
  let ip := cs1.takeWhile Char.isDigit
  let cs2 := cs1.drop ip.length
  match cs2 with
  | '.' :: cs3 =>
    let fp := cs3.takeWhile Char.isDigit
    if ip.isEmpty && fp.isEmpty then none
    else some (.num (pNumVal neg ip fp), cs3.drop fp.length)
  | _ => if ip.isEmpty then none else some (.num (pNumVal neg ip []), cs2)

/-- Scan a quoted string up to the closing quote `q` (plain strings, as they
occur in zone expressions). -/
def strScan (q : Char) : List Char → Option (List Char × List Char)
  | [] => none
  | c :: rest =>
    if c == q then some ([], rest)
    else
      match strScan q rest with
      | some (s, r) => some (c :: s, r)
      | none => none

/-- Parse a comma-separated element sequence up to the closing bracket.  The
boolean records whether a comma was seen, which distinguishes the
parenthesized expression `(5)` from the one-element tuple `(5,)`. -/
def pElems (pl : List Char → Option (PyLit × List Char)) :
    ℕ → Char → List Char → Option (List PyLit × Bool × List Char)
  | 0, _, _ => none
  | fuel + 1, close, cs =>
    match skipWsL cs with
    | [] => none
    | c :: rest =>
      if c == close then some ([], false, rest)
      else
        match pl (c :: rest) with
        | none => none
        | some (v, cs2) =>
          match skipWsL cs2 with
          | [] => none
          | c2 :: rest2 =>
            if c2 == close then some ([v], false, rest2)
            else if c2 == ',' then
              match pElems pl fuel close rest2 with
              | some (vs, _, r3) => some (v :: vs, true, r3)
              | none => none
            else none

/-- Fuel-indexed literal parser: lists, tuples (and parenthesized literals),
quoted strings and numbers. -/
def pLit : ℕ → List Char → Option (PyLit × List Char)
  | 0, _ => none
  | fuel + 1, cs =>
    match skipWsL cs with
    | [] => none
    | c :: rest =>
      if c == '[' then
        match pElems (pLit fuel) (rest.length + 1) ']' rest with
        | some (vs, _, r) => some (.list vs, r)
        | none => none
      else if c == '(' then
        match pElems (pLit fuel) (rest.length + 1) ')' rest with
        | some ([v], false, r) => some (v, r)
        | some (vs, _, r) => some (.tuple vs, r)
        | none => none
      else if c == '\'' then
        match strScan '\'' rest with
        | some (s, r) => some (.str s, r)
        | none => none
      else if c == '"' then
        match strScan '"' rest with
        | some (s, r) => some (.str s, r)
        | none => none
      else pNumTok (c :: rest)

/-- Models `ast.literal_eval` on a zone expression: the literal must consume
the whole input. -/
def litEval (cs : List Char) : Option PyLit :=
  match pLit (cs.length + 1) cs with
  | some (v, rest) => if (skipWsL rest).isEmpty then some v else none
  | none => none

/-! ## Shapes, the geometry oracle, and the zone table -/

/-- Shapes held in the zone table: polygon literals keep their vertex ring,
circle literals keep their parameters together with the resolution used to
polygonize them, and set-operation results keep the operation tree (the code
stores the shapely geometry computed by the corresponding boolean operation;
its point set is given by `region` below). -/
inductive Shape where
  | poly (ring : List (ℚ × ℚ))
  | circle (cx cy r : ℚ) (n : ℕ)
  | union (A B : Shape)
  | inter (A B : Shape)
  | diff (A B : Shape)
  | sdiff (A B : Shape)
deriving DecidableEq

/-- The two yes/no answers the constructor obtains from the geometry library:
`Polygon(coords).is_valid` on a vertex ring, and `result.is_empty` on a
set-operation result.  Keeping them as an explicit oracle makes the
evaluator's control flow independent of any particular geometry engine, which
is exactly how the source uses shapely. -/
structure Geom where
  isValid : List (ℚ × ℚ) → Bool
  isEmpty : Shape → Bool

/-- The zone table: insertion-ordered association list, as a CPython `dict`. -/
abbrev ZTable := List (List Char × Shape)

/-- Dictionary lookup `self.zones[name]` / `name in self.zones`. -/
def lookupZ : ZTable → List Char → Option Shape
  | [], _ => none
  | (k, s) :: rest, name => if k == name then some s else lookupZ rest name

/-- Dictionary assignment `self.zones[name] = s`: an existing key keeps its
position and gets the new value, a new key is appended. -/
def updateBind : ZTable → List Char → Shape → ZTable
  | [], name, s => [(name, s)]
  | (k, v) :: rest, name, s =>
    if k == name then (k, s) :: rest else (k, v) :: updateBind rest name s

/-- Construction-time errors (all `ValueError` in the source, distinguished
here by their message): the line-attributed DSL errors, plus `geomRaise` for
an exception raised inside the geometry library itself (e.g. by
`Polygon(coords)` on malformed coordinates), which the constructor does not
catch and which carries no line attribution. -/
inductive ZErr where
  | synErr (line : List Char) (idx : ℕ)
  | exprErr (name : List Char) (idx : ℕ)
  | coordsParse (name : List Char) (idx : ℕ)
  | coordsShape (name : List Char) (idx : ℕ)
  | invalidPoly (name : List Char) (idx : ℕ)
  | circleParse (name : List Char) (idx : ℕ)
  | circleShape (name : List Char) (idx : ℕ)
  | circleRadius (name : List Char) (idx : ℕ)
  | refErr (zone : List Char) (idx : ℕ)
  | emptyErr (name : List Char) (idx : ℕ)
  | geomRaise
deriving DecidableEq

/-- The `isinstance(pt, (list, tuple)) and len(pt) == 2` element check of
`_parse_coords`: a 2-element list or tuple, with no constraint on the
element values. -/
def pyPair : PyLit → Bool
  | .list [_, _] => true
  | .tuple [_, _] => true
  | _ => false

/-- Models `ZonesHandler._parse_coords`: evaluate the literal, then require a
list or tuple all of whose elements are 2-element lists/tuples. -/
def parseCoords (name : List Char) (idx : ℕ) (expr : List Char) : Except ZErr (List PyLit) :=
  match litEval expr with
  | none => .error (.coordsParse name idx)
  | some (.list xs) => if xs.all pyPair then .ok xs else .error (.coordsShape name idx)
  | some (.tuple xs) => if xs.all pyPair then .ok xs else .error (.coordsShape name idx)
  | some _ => .error (.coordsShape name idx)

/-- A coordinate pair usable by the geometry library: both members numeric. -/
def litPoint : PyLit → Option (ℚ × ℚ)
  | .tuple [.num x, .num y] => some (x, y)
  | .list [.num x, .num y] => some (x, y)
  | _ => none

/-- Models the shapely `Polygon(coords)` constructor: an empty coordinate
sequence yields the empty polygon; a non-empty one needs at least 3
coordinates and numeric members, otherwise shapely raises (without any DSL
line attribution). -/
def mkPolygonRing (xs : List PyLit) : Option (List (ℚ × ℚ)) :=
  if xs.isEmpty then some []
  else if xs.length < 3 then none
  else xs.mapM litPoint

/-- The radius check `r <= 0`, implemented on the numerator so that it
evaluates in the kernel; `qNonpos_iff` proves it equivalent. -/
def qNonpos (q : ℚ) : Bool :=
  decide (q.num ≤ 0)

/-- The `isinstance(vals, (list, tuple)) and len(vals) == 3 and all numeric`
check of `_parse_circle`. -/
def circleTriple : PyLit → Option (ℚ × ℚ × ℚ)
  | .tuple [.num cx, .num cy, .num r] => some (cx, cy, r)
  | .list [.num cx, .num cy, .num r] => some (cx, cy, r)
  | _ => none

/-- Models `ZonesHandler._parse_circle`: evaluate the literal, require a
3-tuple of numbers with positive radius, and record the circle parameters
together with the resolution (the polygonization produced by
`Point(cx, cy).buffer(r, resolution)` is `circleRing` below). -/
def parseCircle (n : ℕ) (name : List Char) (idx : ℕ) (expr : List Char) : Except ZErr Shape :=
  match litEval expr with
  | none => .error (.circleParse name idx)
  | some v =>
    match circleTriple v with
    | none => .error (.circleShape name idx)
    | some (cx, cy, r) =>
      if qNonpos r then .error (.circleRadius name idx) else .ok (.circle cx cy r n)

/-- The `op_map` dictionary: operator token to set operation. -/
def applyOp (o : Char) (A B : Shape) : Shape :=
  if o == 'U' then .union A B
  else if o == 'I' then .inter A B
  else if o == '-' then .diff A B
  else .sdiff A B

/-- Evaluate the right-hand side of an assignment, classified exactly as in
the source: `[`-led expressions are polygon literals, `(`-led-and-`)`-ended
expressions are circle literals, everything else must match `op_re`. -/
def shapeOfExpr (g : Geom) (n : ℕ) (st : ZTable) (idx : ℕ) (name expr : List Char) :
    Except ZErr Shape :=
  if expr.head? == some '[' then
    match parseCoords name idx expr with
    | .error e => .error e
    | .ok coords =>
      match mkPolygonRing coords with
      | none => .error .geomRaise
      | some ring =>
        if g.isValid ring then .ok (.poly ring) else .error (.invalidPoly name idx)
  else if expr.head? == some '(' && expr.getLast? == some ')' then
    parseCircle n name idx expr
  else
    match opMatch expr with
    | none => .error (.exprErr name idx)
    | some (l, o, r) =>
      match lookupZ st l with
      | none => .error (.refErr l idx)
      | some A =>
        match lookupZ st r with
        | none => .error (.refErr r idx)
        | some B =>
          if g.isEmpty (applyOp o A B) then .error (.emptyErr name idx)
          else .ok (applyOp o A B)

/-- Evaluate an assignment and bind the result: `self.zones[name] = shape`. -/
def evalAssign (g : Geom) (n : ℕ) (st : ZTable) (idx : ℕ) (name expr : List Char) :
    Except ZErr ZTable :=
  match shapeOfExpr g n st idx name expr with
  | .ok s => .ok (updateBind st name s)
  | .error e => .error e

/-- Process one raw source line: strip the comment and whitespace, skip if
empty, match `assign_re`, then evaluate the assignment. -/
def processLine (g : Geom) (n : ℕ) (st : ZTable) (idx : ℕ) (raw : List Char) :
    Except ZErr ZTable :=
  if (lineStrip raw).isEmpty then .ok st
  else
    match assignMatch (lineStrip raw) with
    | none => .error (.synErr (lineStrip raw) idx)
    | some (name, expr) => evalAssign g n st idx name expr

/-- The construction loop `for idx, raw in enumerate(..., 1)`: lines in order,
any error aborting the whole pass. -/
def processLines (g : Geom) (n : ℕ) : ZTable → ℕ → List (List Char) → Except ZErr ZTable
  | st, _, [] => .ok st
  | st, idx, raw :: rest =>
    match processLine g n st idx raw with
    | .ok st2 => processLines g n st2 (idx + 1) rest
    | .error e => .error e

/-- The line sequence the constructor iterates: `code_str.strip().splitlines()`
(note: the whole source is stripped before splitting). -/
def linesOf (src : String) : List (List Char) :=
  splitLinesPy (pyStripL src.data)

/-- Models `ZonesHandler.__init__`: a successful result is the populated zone
table, an error is the `ValueError` that aborted construction. -/
def buildZones (g : Geom) (n : ℕ) (src : String) : Except ZErr ZTable :=
  processLines g n [] 1 (linesOf src)

/-- Concrete geometry oracle used for concrete inputs in this file: every ring
fed to it is a genuinely valid (or empty) polygon, on which GEOS `is_valid`
answers true, and no set-operation result fed to it is empty. -/
def geomModel : Geom :=
  ⟨fun _ => true, fun _ => false⟩

/-! ## Geometric queries -/

/-- Edges of a closed ring: consecutive vertices plus the closing edge back to
the first vertex. -/
def closedEdges {α : Type} : List α → List (α × α)
  | [] => []
  | v :: vs => List.zip (v :: vs) (vs ++ [v])

/-- Point-on-segment test: zero cross product and coordinates inside the
bounding box of the segment. -/
def onSegB (a b p : ℚ × ℚ) : Bool :=
  decide ((b.1 - a.1) * (p.2 - a.2) = (b.2 - a.2) * (p.1 - a.1)) &&
  decide (min a.1 b.1 ≤ p.1) && decide (p.1 ≤ max a.1 b.1) &&
  decide (min a.2 b.2 ≤ p.2) && decide (p.2 ≤ max a.2 b.2)

/-- Point on the boundary of a ring: on one of its closed edges. -/
def onRingB (ring : List (ℚ × ℚ)) (p : ℚ × ℚ) : Bool :=
  (closedEdges ring).any (fun e => onSegB e.1 e.2 p)

/-- One edge crossing of the horizontal ray from `p` to the right (the
standard even-odd ray cast used by GEOS point location). -/
def rayCrossB (a b p : ℚ × ℚ) : Bool :=
  (decide (p.2 < a.2) != decide (p.2 < b.2)) &&
  decide (p.1 < (b.1 - a.1) * (p.2 - a.2) / (b.2 - a.2) + a.1)

/-- Odd number of ray crossings: point in the interior by the even-odd rule
(for the simple rings the evaluator accepts this is the polygon interior). -/
def crossingsOddB (ring : List (ℚ × ℚ)) (p : ℚ × ℚ) : Bool :=
  ((closedEdges ring).filter (fun e => rayCrossB e.1 e.2 p)).length % 2 == 1

/-- Models shapely `covers` (closed-region membership: boundary included) for
polygon-literal shapes, whose ring the table stores exactly; for circle and
set-operation shapes the answer lives inside the geometry engine and is left
unmodelled (`none`). -/
def coversB : Shape → ℚ × ℚ → Option Bool
  | .poly ring, p => some (onRingB ring p || crossingsOddB ring p)
  | _, _ => none

/-- Models `ZonesHandler.in_zone`: unknown names raise `KeyError` (the error
value carries the name), otherwise the `covers` answer. -/
def inZoneE (st : ZTable) (name : List Char) (p : ℚ × ℚ) : Except (List Char) (Option Bool) :=
  match lookupZ st name with
  | none => .error name
  | some s => .ok (coversB s p)

/-- Models `ZonesHandler.get_bounds` (shapely `.bounds`) for polygon-literal
shapes: coordinate extremes `(minx, miny, maxx, maxy)` of the stored ring.
The empty polygon has no bounds (shapely returns an empty tuple), and for
circle / set-operation shapes the value is computed by the geometry engine
and left unmodelled. -/
def getBounds : Shape → Option (ℚ × ℚ × ℚ × ℚ)
  | .poly (v :: vs) =>
    some ((vs.map Prod.fst).foldl min v.1, (vs.map Prod.snd).foldl min v.2,
          (vs.map Prod.fst).foldl max v.1, (vs.map Prod.snd).foldl max v.2)
  | _ => none

/-- Rational point as a real point. -/
def castPt (p : ℚ × ℚ) : ℝ × ℝ :=
  ((p.1 : ℝ), (p.2 : ℝ))

/-- Euclidean distance in the plane. -/
noncomputable def ptDist (p q : ℝ × ℝ) : ℝ :=
  Real.sqrt ((p.1 - q.1) ^ 2 + (p.2 - q.2) ^ 2)

/-- Total boundary length of a ring. -/
noncomputable def ringLength (ring : List (ℚ × ℚ)) : ℝ :=
  ((closedEdges ring).map (fun e => ptDist (castPt e.1) (castPt e.2))).sum

/-- Models `ZonesHandler.get_perimeter` (shapely `.length`) for
polygon-literal shapes. -/
noncomputable def getPerimeter : Shape → Option ℝ
  | .poly ring => some (ringLength ring)
  | _ => none

/-- Point on a real segment. -/
def OnSegR (a b p : ℝ × ℝ) : Prop :=
  ∃ t : ℝ, 0 ≤ t ∧ t ≤ 1 ∧ p.1 = a.1 + t * (b.1 - a.1) ∧ p.2 = a.2 + t * (b.2 - a.2)

/-- Point on the boundary of a real ring. -/
def OnRingR (ring : List (ℝ × ℝ)) (p : ℝ × ℝ) : Prop :=
  ∃ e ∈ closedEdges ring, OnSegR e.1 e.2 p

/-- One real ray crossing (even-odd rule, as `rayCrossB`). -/
def RayCrossR (a b p : ℝ × ℝ) : Prop :=
  (¬((p.2 < a.2) ↔ (p.2 < b.2))) ∧ p.1 < (b.1 - a.1) * (p.2 - a.2) / (b.2 - a.2) + a.1

open Classical in
/-- Number of edges of the ring crossed by the rightward ray from `p`. -/
noncomputable def crossCountR (ring : List (ℝ × ℝ)) (p : ℝ × ℝ) : ℕ :=
  ((closedEdges ring).filter (fun e => decide (RayCrossR e.1 e.2 p))).length

/-- Interior of a real ring by the even-odd rule. -/
def InsideR (ring : List (ℝ × ℝ)) (p : ℝ × ℝ) : Prop :=
  crossCountR ring p % 2 = 1

/-- Closed region of a ring: boundary plus even-odd interior. -/
def polyRegionR (ring : List (ℝ × ℝ)) : Set (ℝ × ℝ) :=
  {p | OnRingR ring p ∨ InsideR ring p}

/-- The vertex ring produced by shapely `Point(cx, cy).buffer(r, resolution
= n)`: the `resolution` argument is the number of segments per quarter
circle, so the boundary is a regular polygon with `4 * n` vertices at equally
spaced angles, each at distance `r` from the center. -/
noncomputable def circleRing (cx cy r : ℚ) (n : ℕ) : List (ℝ × ℝ) :=
  (List.range (4 * n)).map (fun (k : ℕ) =>
    ((cx : ℝ) + (r : ℝ) * Real.cos (2 * Real.pi * (k : ℝ) / (4 * (n : ℝ))),
     (cy : ℝ) + (r : ℝ) * Real.sin (2 * Real.pi * (k : ℝ) / (4 * (n : ℝ)))))

/-- Point set of a shape: polygon regions for the two literal forms, and the
set algebra of the operator table (`U` union, `I` intersection, `-`
difference, `^` symmetric difference) for operation results. -/
noncomputable def region : Shape → Set (ℝ × ℝ)
  | .poly ring => polyRegionR (ring.map castPt)
  | .circle cx cy r n => polyRegionR (circleRing cx cy r n)
  | .union A B => region A ∪ region B
  | .inter A B => region A ∩ region B
  | .diff A B => region A \ region B
  | .sdiff A B => (region A \ region B) ∪ (region B \ region A)

/-- Models `ZonesHandler.get_area` (shapely `.area`): the planar measure of
the shape's point set. -/
noncomputable def getArea (S : Shape) : ℝ :=
  (MeasureTheory.volume (region S)).toReal

/-- Decidable equality of evaluator results, so that concrete runs of the
evaluator can be checked by `decide`. -/
instance {ε α : Type} [DecidableEq ε] [DecidableEq α] : DecidableEq (Except ε α) := fun a b =>
  match a, b with
  | .ok x, .ok y =>
    if h : x = y then isTrue (by rw [h]) else isFalse (by intro hh; cases hh; exact h rfl)
  | .error x, .error y =>
    if h : x = y then isTrue (by rw [h]) else isFalse (by intro hh; cases hh; exact h rfl)
  | .ok _, .error _ => isFalse (by intro hh; cases hh)
  | .error _, .ok _ => isFalse (by intro hh; cases hh)

/-! ## Semantic membership predicates over the stored rational rings -/

/-- Point on a rational segment: a convex combination of its endpoints. -/
def OnSegP (a b p : ℚ × ℚ) : Prop :=
  ∃ t : ℚ, 0 ≤ t ∧ t ≤ 1 ∧ p.1 = a.1 + t * (b.1 - a.1) ∧ p.2 = a.2 + t * (b.2 - a.2)

/-- Point exactly on the boundary of a stored polygon ring. -/
def OnRingP (ring : List (ℚ × ℚ)) (p : ℚ × ℚ) : Prop :=
  ∃ e ∈ closedEdges ring, OnSegP e.1 e.2 p

/-- Point strictly inside a stored polygon ring: in the even-odd interior and
not on the boundary. -/
def StrictlyInside (ring : List (ℚ × ℚ)) (p : ℚ × ℚ) : Prop :=
  crossingsOddB ring p = true ∧ ¬ OnRingP ring p

/-! ## Helper lemmas -/

theorem qNonpos_iff (q : ℚ) : qNonpos q = true ↔ q ≤ 0 := by
  unfold qNonpos
  rw [decide_eq_true_eq, Rat.num_nonpos]

theorem lookupZ_updateBind (st : ZTable) (name : List Char) (s : Shape) :
    lookupZ (updateBind st name s) name = some s := by
  induction st with
  | nil => simp [updateBind, lookupZ]
  | cons kv rest ih =>
    obtain ⟨k, v⟩ := kv
    by_cases h : (k == name) = true
    · simp [updateBind, lookupZ, h]
    · simp only [Bool.not_eq_true] at h
      simp [updateBind, lookupZ, h, ih]

theorem region_poly_nil : region (.poly []) = ∅ := by
  unfold region polyRegionR
  ext p
  simp [OnRingR, InsideR, crossCountR, closedEdges]

theorem ringLength_nil : ringLength [] = 0 := by
  simp [ringLength, closedEdges]

theorem foldl_min_le (xs : List ℚ) (a : ℚ) : xs.foldl min a ≤ a := by
  induction xs generalizing a with
  | nil => simp
  | cons x xs ih =>
    simp only [List.foldl_cons]
    exact le_trans (ih (min a x)) (min_le_left a x)

theorem foldl_min_le_of_mem (xs : List ℚ) (a x : ℚ) (h : x ∈ xs) : xs.foldl min a ≤ x := by
  induction xs generalizing a with
  | nil => cases h
  | cons y ys ih =>
    simp only [List.foldl_cons]
    rcases List.mem_cons.mp h with rfl | hm
    · exact le_trans (foldl_min_le ys (min a x)) (min_le_right a x)
    · exact ih (min a y) hm

theorem foldl_min_mem (xs : List ℚ) (a : ℚ) : xs.foldl min a = a ∨ xs.foldl min a ∈ xs := by
  induction xs generalizing a with
  | nil => simp
  | cons x xs ih =>
    simp only [List.foldl_cons]
    rcases ih (min a x) with h | h
    · rcases min_choice a x with hm | hm
      · left; rw [h, hm]
      · right; rw [h, hm]; exact List.mem_cons_self x xs
    · right; exact List.mem_cons_of_mem x h

theorem le_foldl_max (xs : List ℚ) (a : ℚ) : a ≤ xs.foldl max a := by
  induction xs generalizing a with
  | nil => simp
  | cons x xs ih =>
    simp only [List.foldl_cons]
    exact le_trans (le_max_left a x) (ih (max a x))

theorem le_foldl_max_of_mem (xs : List ℚ) (a x : ℚ) (h : x ∈ xs) : x ≤ xs.foldl max a := by
  induction xs generalizing a with
  | nil => cases h
  | cons y ys ih =>
    simp only [List.foldl_cons]
    rcases List.mem_cons.mp h with rfl | hm
    · exact le_trans (le_max_right a x) (le_foldl_max ys (max a x))
    · exact ih (max a y) hm

theorem foldl_max_mem (xs : List ℚ) (a : ℚ) : xs.foldl max a = a ∨ xs.foldl max a ∈ xs := by
  induction xs generalizing a with
  | nil => simp
  | cons x xs ih =>
    simp only [List.foldl_cons]
    rcases ih (max a x) with h | h
    · rcases max_choice a x with hm | hm
      · left; rw [h, hm]
      · right; rw [h, hm]; exact List.mem_cons_self x xs
    · right; exact List.mem_cons_of_mem x h

/-! ## C9: the empty polygon literal -/

/-- C9: a line whose expression is the empty list literal `[]` builds without
error (the vacuous pair check and the geometry constructor both accept it, and
GEOS reports the empty polygon valid, which is the `g.isValid [] = true`
hypothesis); the name is bound to the empty shape, whose area and perimeter
are both `0`.  The empty-result check guards only set-operation results, as
the success here shows: `g.isEmpty` is arbitrary. -/
theorem empty_list_zone_ok (g : Geom) (n : ℕ) (st : ZTable) (idx : ℕ) (name : List Char)
    (hv : g.isValid [] = true) :
    evalAssign g n st idx name ['[', ']'] = .ok (updateBind st name (.poly [])) ∧
    getArea (.poly []) = 0 ∧ getPerimeter (.poly []) = some 0 := by
  refine ⟨?_, ?_, ?_⟩
  · have hred : shapeOfExpr g n st idx name ['[', ']'] =
        if g.isValid [] then .ok (.poly []) else .error (.invalidPoly name idx) := rfl
    have hshape : shapeOfExpr g n st idx name ['[', ']'] = .ok (.poly []) := by
      rw [hred, hv]
      simp
    rw [evalAssign, hshape]
  · rw [getArea, region_poly_nil]
    simp
  · rw [getPerimeter, ringLength_nil]

/-- Witness for C9 at a concrete name and state. -/
theorem empty_list_zone_ok_witness :
    geomModel.isValid [] = true ∧
    (evalAssign geomModel 64 [] 1 ['z'] ['[', ']'] = .ok (updateBind [] ['z'] (.poly [])) ∧
     getArea (.poly []) = 0 ∧ getPerimeter (.poly []) = some 0) :=
  ⟨rfl, empty_list_zone_ok geomModel 64 [] 1 ['z'] rfl⟩

/-! ## C3: duplicate names rebind silently -/

/-- C3 counterexample: a source that assigns the same name twice, each
assignment succeeding individually, does not fail — construction returns a
table in which the name is bound to the second shape (so no
DuplicateNameError exists and the first binding is overwritten). -/
theorem duplicate_name_rebinds_cex :
    buildZones geomModel 64 "a = [(0,0),(1,0),(0,1)]\na = [(0,0),(2,0),(0,2)]" =
      .ok [(['a'], .poly [(0, 0), (2, 0), (0, 2)])] := by decide

/-- C3 (amended): re-using an already bound name is not an error: when the
second right-hand side also evaluates successfully, the assignment simply
rebinds the name, and the final table maps it to the second shape. -/
theorem duplicate_name_overwrites (g : Geom) (n : ℕ) (st : ZTable) (idx1 idx2 : ℕ)
    (name e1 e2 : List Char) (S1 S2 : Shape)
    (h1 : shapeOfExpr g n st idx1 name e1 = .ok S1)
    (h2 : shapeOfExpr g n (updateBind st name S1) idx2 name e2 = .ok S2) :
    evalAssign g n st idx1 name e1 = .ok (updateBind st name S1) ∧
    evalAssign g n (updateBind st name S1) idx2 name e2 =
      .ok (updateBind (updateBind st name S1) name S2) ∧
    lookupZ (updateBind (updateBind st name S1) name S2) name = some S2 := by
  refine ⟨?_, ?_, lookupZ_updateBind _ _ _⟩
  · rw [evalAssign, h1]
  · rw [evalAssign, h2]

/-- Witness for C3's amended statement at two concrete triangle literals. -/
theorem duplicate_name_overwrites_witness :
    shapeOfExpr geomModel 64 [] 1 ['a'] "[(0,0),(1,0),(0,1)]".data =
      .ok (.poly [(0, 0), (1, 0), (0, 1)]) ∧
    shapeOfExpr geomModel 64 (updateBind [] ['a'] (.poly [(0, 0), (1, 0), (0, 1)])) 2 ['a']
        "[(0,0),(2,0),(0,2)]".data = .ok (.poly [(0, 0), (2, 0), (0, 2)]) ∧
    (evalAssign geomModel 64 [] 1 ['a'] "[(0,0),(1,0),(0,1)]".data =
      .ok (updateBind [] ['a'] (.poly [(0, 0), (1, 0), (0, 1)])) ∧
    evalAssign geomModel 64 (updateBind [] ['a'] (.poly [(0, 0), (1, 0), (0, 1)])) 2 ['a']
        "[(0,0),(2,0),(0,2)]".data =
      .ok (updateBind (updateBind [] ['a'] (.poly [(0, 0), (1, 0), (0, 1)])) ['a']
        (.poly [(0, 0), (2, 0), (0, 2)])) ∧
    lookupZ (updateBind (updateBind [] ['a'] (.poly [(0, 0), (1, 0), (0, 1)])) ['a']
        (.poly [(0, 0), (2, 0), (0, 2)])) ['a'] = some (.poly [(0, 0), (2, 0), (0, 2)])) :=
  ⟨by decide, by decide,
   duplicate_name_overwrites geomModel 64 [] 1 2 ['a'] _ _ _ _ (by decide) (by decide)⟩

/-! ## C8: the coordinate check only tests pair structure -/

/-- C8 counterexample: a polygon literal in which one pair contains a string
passes `_parse_coords` (the pair check tests only that elements are 2-element
lists/tuples), so construction does not fail with the line-attributed
ShapeError; the failure is the geometry constructor's own exception, which
carries no line attribution. -/
theorem coords_string_pair_cex :
    buildZones geomModel 64 "z = [(0,0),(1,'a'),(2,2)]" = .error .geomRaise ∧
    buildZones geomModel 64 "z = [(0,0),(1,'a'),(2,2)]" ≠ .error (.coordsShape ['z'] 1) ∧
    buildZones geomModel 64 "z = [(0,0),(1,'a'),(2,2)]" ≠ .error (.coordsParse ['z'] 1) ∧
    buildZones geomModel 64 "z = [(0,0),(1,'a'),(2,2)]" ≠ .error (.invalidPoly ['z'] 1) := by
  exact ⟨by decide, by decide, by decide, by decide⟩

/-- C8 (amended): for a polygon-literal expression whose literal parses as a
list, the line-attributed ShapeError is raised exactly when some element is
not a 2-element list/tuple; an element that is a 2-tuple passes the check even
when a member is non-numeric (such as a string), so the ShapeError is not
raised for it. -/
theorem coords_check_structure_only (name : List Char) (idx : ℕ) (expr : List Char)
    (v : List PyLit) (h : litEval expr = some (.list v)) :
    (parseCoords name idx expr = .ok v ↔ v.all pyPair = true) ∧
    (v.all pyPair = false → parseCoords name idx expr = .error (.coordsShape name idx)) := by
  unfold parseCoords
  rw [h]
  constructor
  · by_cases hv : v.all pyPair = true
    · simp [hv]
    · simp only [Bool.not_eq_true] at hv
      simp [hv]
  · intro hv
    simp [hv]

/-- Witness for C8's amended statement: the literal with a string inside a
pair parses as a list, and the pair check accepts it. -/
theorem coords_check_structure_only_witness :
    litEval "[(0,0),(1,'a'),(2,2)]".data =
      some (.list [.tuple [.num 0, .num 0], .tuple [.num 1, .str ['a']],
                   .tuple [.num 2, .num 2]]) ∧
    ((parseCoords ['z'] 1 "[(0,0),(1,'a'),(2,2)]".data =
        .ok [.tuple [.num 0, .num 0], .tuple [.num 1, .str ['a']],
             .tuple [.num 2, .num 2]] ↔
      List.all [PyLit.tuple [.num 0, .num 0], .tuple [.num 1, .str ['a']],
                .tuple [.num 2, .num 2]] pyPair = true) ∧
     (List.all [PyLit.tuple [.num 0, .num 0], .tuple [.num 1, .str ['a']],
                .tuple [.num 2, .num 2]] pyPair = false →
      parseCoords ['z'] 1 "[(0,0),(1,'a'),(2,2)]".data = .error (.coordsShape ['z'] 1))) :=
  ⟨rfl, coords_check_structure_only ['z'] 1 _ _ rfl⟩

/-! ## C5: bounds are the tight box of the input vertices -/

/-- C5: for a zone stored as a (non-empty) polygon literal, `get_bounds`
returns `(minx, miny, maxx, maxy)` where each value is attained at an input
vertex and bounds all input vertices: the tight axis-aligned bounding box of
the literal's vertices. -/
theorem bounds_tight_box (g : Geom) (n : ℕ) (src : String) (T : ZTable)
    (name : List Char) (v : ℚ × ℚ) (vs : List (ℚ × ℚ))
    (h : buildZones g n src = .ok T)
    (hl : lookupZ T name = some (.poly (v :: vs))) :
    ∃ mnx mny mxx mxy,
      getBounds (.poly (v :: vs)) = some (mnx, mny, mxx, mxy) ∧
      (∃ p ∈ v :: vs, p.1 = mnx) ∧ (∃ p ∈ v :: vs, p.2 = mny) ∧
      (∃ p ∈ v :: vs, p.1 = mxx) ∧ (∃ p ∈ v :: vs, p.2 = mxy) ∧
      ∀ p ∈ v :: vs, mnx ≤ p.1 ∧ p.1 ≤ mxx ∧ mny ≤ p.2 ∧ p.2 ≤ mxy := by
  refine ⟨(vs.map Prod.fst).foldl min v.1, (vs.map Prod.snd).foldl min v.2,
          (vs.map Prod.fst).foldl max v.1, (vs.map Prod.snd).foldl max v.2,
          rfl, ?_, ?_, ?_, ?_, ?_⟩
  · rcases foldl_min_mem (vs.map Prod.fst) v.1 with hm | hm
    · exact ⟨v, List.mem_cons_self v vs, hm.symm⟩
    · obtain ⟨q, hq, hqe⟩ := List.mem_map.mp hm
      exact ⟨q, List.mem_cons_of_mem v hq, hqe⟩
  · rcases foldl_min_mem (vs.map Prod.snd) v.2 with hm | hm
    · exact ⟨v, List.mem_cons_self v vs, hm.symm⟩
    · obtain ⟨q, hq, hqe⟩ := List.mem_map.mp hm
      exact ⟨q, List.mem_cons_of_mem v hq, hqe⟩
  · rcases foldl_max_mem (vs.map Prod.fst) v.1 with hm | hm
    · exact ⟨v, List.mem_cons_self v vs, hm.symm⟩
    · obtain ⟨q, hq, hqe⟩ := List.mem_map.mp hm
      exact ⟨q, List.mem_cons_of_mem v hq, hqe⟩
  · rcases foldl_max_mem (vs.map Prod.snd) v.2 with hm | hm
    · exact ⟨v, List.mem_cons_self v vs, hm.symm⟩
    · obtain ⟨q, hq, hqe⟩ := List.mem_map.mp hm
      exact ⟨q, List.mem_cons_of_mem v hq, hqe⟩
  · intro p hp
    rcases List.mem_cons.mp hp with rfl | hm
    · exact ⟨foldl_min_le _ _, le_foldl_max _ _, foldl_min_le _ _, le_foldl_max _ _⟩
    · exact ⟨foldl_min_le_of_mem _ _ _ (List.mem_map_of_mem Prod.fst hm),
             le_foldl_max_of_mem _ _ _ (List.mem_map_of_mem Prod.fst hm),
             foldl_min_le_of_mem _ _ _ (List.mem_map_of_mem Prod.snd hm),
             le_foldl_max_of_mem _ _ _ (List.mem_map_of_mem Prod.snd hm)⟩

/-- Witness for C5 at a concrete triangle literal. -/
theorem bounds_tight_box_witness :
    buildZones geomModel 64 "t = [(0,0),(4,0),(0,3)]" =
      .ok [(['t'], .poly [(0, 0), (4, 0), (0, 3)])] ∧
    lookupZ [(['t'], .poly [(0, 0), (4, 0), (0, 3)])] ['t'] =
      some (.poly ((0, 0) :: [(4, 0), (0, 3)])) ∧
    (∃ mnx mny mxx mxy,
      getBounds (.poly ((0, 0) :: [(4, 0), (0, 3)])) = some (mnx, mny, mxx, mxy) ∧
      (∃ p ∈ (0, 0) :: [((4 : ℚ), (0 : ℚ)), (0, 3)], p.1 = mnx) ∧
      (∃ p ∈ (0, 0) :: [((4 : ℚ), (0 : ℚ)), (0, 3)], p.2 = mny) ∧
      (∃ p ∈ (0, 0) :: [((4 : ℚ), (0 : ℚ)), (0, 3)], p.1 = mxx) ∧
      (∃ p ∈ (0, 0) :: [((4 : ℚ), (0 : ℚ)), (0, 3)], p.2 = mxy) ∧
      ∀ p ∈ (0, 0) :: [((4 : ℚ), (0 : ℚ)), (0, 3)],
        mnx ≤ p.1 ∧ p.1 ≤ mxx ∧ mny ≤ p.2 ∧ p.2 ≤ mxy) :=
  ⟨by decide, by decide,
   bounds_tight_box geomModel 64 "t = [(0,0),(4,0),(0,3)]"
     [(['t'], .poly [(0, 0), (4, 0), (0, 3)])] ['t'] (0, 0) [(4, 0), (0, 3)]
     (by decide) (by decide)⟩

/-! ## Prefix decomposition of the construction loop -/

theorem processLines_append_ok (g : Geom) (n : ℕ) (xs : List (List Char)) :
    ∀ (ys : List (List Char)) (st st2 : ZTable) (idx : ℕ),
      processLines g n st idx xs = .ok st2 →
      processLines g n st idx (xs ++ ys) = processLines g n st2 (idx + xs.length) ys := by
  induction xs with
  | nil =>
    intro ys st st2 idx h
    simp only [processLines] at h
    cases h
    simp [processLines]
  | cons x xs ih =>
    intro ys st st2 idx h
    simp only [processLines, List.cons_append] at h ⊢
    cases hpl : processLine g n st idx x with
    | ok stm =>
      rw [hpl] at h
      have h2 : processLines g n stm (idx + 1) xs = Except.ok st2 := h
      have h3 := ih ys stm st2 (idx + 1) h2
      show processLines g n stm (idx + 1) (xs ++ ys) =
        processLines g n st2 (idx + (x :: xs).length) ys
      rw [h3, List.length_cons]
      congr 1
      omega
    | error e =>
      rw [hpl] at h
      exact Except.noConfusion h

theorem linesOf_decomp (src : String) (i : ℕ) (hi : i < (linesOf src).length) :
    linesOf src =
      (linesOf src).take i ++ (linesOf src).getD i [] :: (linesOf src).drop (i + 1) := by
  conv_lhs => rw [← List.take_append_drop i (linesOf src)]
  congr 1
  rw [List.getD_eq_getElem (linesOf src) [] hi]
  exact List.drop_eq_getElem_cons hi

/-! ## C7: line numbering counts lines of the stripped source -/

/-- C7 counterexample: for the source `"\nbad!"`, whose offending line is the
second line of the original source (`splitLinesPy` shows the original line
list), construction reports line 1, not 2: the constructor strips the whole
source before splitting, so leading blank lines are dropped from the count. -/
theorem line_numbering_cex :
    buildZones geomModel 64 "\nbad!" = .error (.synErr "bad!".data 1) ∧
    splitLinesPy "\nbad!".data = [[], "bad!".data] ∧
    buildZones geomModel 64 "\nbad!" ≠ .error (.synErr "bad!".data 2) := by
  exact ⟨by decide, by decide, by decide⟩

/-- C7 (amended): lines are iterated in order and numbered 1-indexed over
`source.strip().splitlines()` — the source with leading and trailing
whitespace removed, so that leading blank lines do not count, while leading
comment-only lines do.  Every line that strips to a non-empty string not
matching `name = expression` aborts construction with a SyntaxError carrying
that line and its 1-based index in the stripped source. -/
theorem syn_error_line_numbering (g : Geom) (n : ℕ) (src : String) (i : ℕ) (st : ZTable)
    (line : List Char)
    (hi : i < (linesOf src).length)
    (hpre : processLines g n [] 1 ((linesOf src).take i) = .ok st)
    (hline : lineStrip ((linesOf src).getD i []) = line)
    (hne : line ≠ [])
    (hm : assignMatch line = none) :
    buildZones g n src = .error (.synErr line (i + 1)) := by
  unfold buildZones
  rw [linesOf_decomp src i hi,
      processLines_append_ok g n _ _ [] st 1 hpre]
  have hlen : ((linesOf src).take i).length = i := by
    rw [List.length_take]
    omega
  rw [hlen]
  simp only [processLines, processLine, hline]
  have hemp : line.isEmpty = false := by
    cases line with
    | nil => exact absurd rfl hne
    | cons c cs => rfl
  rw [hemp]
  simp only [Bool.false_eq_true, if_false, hm]
  rw [Nat.add_comm 1 i]

/-- Witness for C7's amended statement: a source whose first line is
comment-only and whose second line is malformed reports line 2 — comment
lines are counted, as the amended numbering says. -/
theorem syn_error_line_numbering_witness :
    1 < (linesOf "# note\nbad!").length ∧
    processLines geomModel 64 [] 1 ((linesOf "# note\nbad!").take 1) = .ok [] ∧
    lineStrip ((linesOf "# note\nbad!").getD 1 []) = "bad!".data ∧
    "bad!".data ≠ [] ∧
    assignMatch "bad!".data = none ∧
    buildZones geomModel 64 "# note\nbad!" = .error (.synErr "bad!".data 2) :=
  ⟨by decide, by decide, by decide, by decide, by decide,
   syn_error_line_numbering geomModel 64 "# note\nbad!" 1 [] "bad!".data
     (by decide) (by decide) (by decide) (by decide) (by decide)⟩

/-! ## C6: undefined references abort construction -/

/-- C6: a set-operation line whose left or right identifier is not bound at
that point aborts construction with a ReferenceError carrying the unknown
name (the left one if it is unbound, otherwise the right one) and the line's
1-based index; the result is an error, so the assigned name is never
registered and no table at all — in particular no partial table — is
returned. -/
theorem undefined_ref_aborts (g : Geom) (n : ℕ) (src : String) (i : ℕ) (st : ZTable)
    (name expr l : List Char) (o : Char) (r : List Char)
    (hi : i < (linesOf src).length)
    (hpre : processLines g n [] 1 ((linesOf src).take i) = .ok st)
    (hm : assignMatch (lineStrip ((linesOf src).getD i [])) = some (name, expr))
    (hnp : (expr.head? == some '[') = false)
    (hnc : (expr.head? == some '(' && expr.getLast? == some ')') = false)
    (hop : opMatch expr = some (l, o, r))
    (href : lookupZ st l = none ∨ lookupZ st r = none) :
    buildZones g n src =
      .error (.refErr (if lookupZ st l = none then l else r) (i + 1)) ∧
    (buildZones g n src).isOk = false := by
  have hmain : buildZones g n src =
      .error (.refErr (if lookupZ st l = none then l else r) (i + 1)) := by
    unfold buildZones
    rw [linesOf_decomp src i hi,
        processLines_append_ok g n _ _ [] st 1 hpre]
    have hlen : ((linesOf src).take i).length = i := by
      rw [List.length_take]
      omega
    rw [hlen]
    have hemp : (lineStrip ((linesOf src).getD i [])).isEmpty = false := by
      cases hl0 : lineStrip ((linesOf src).getD i []) with
      | nil => rw [hl0] at hm; exact absurd hm (by simp [assignMatch])
      | cons c cs => rfl
    simp only [processLines, processLine, hemp, Bool.false_eq_true, if_false, hm]
    simp only [evalAssign, shapeOfExpr, hnp, hnc, Bool.false_eq_true, if_false, hop]
    cases hll : lookupZ st l with
    | none =>
      simp only [hll, if_pos]
      rw [Nat.add_comm 1 i]
    | some A =>
      have hr2 : lookupZ st r = none := by
        rcases href with hl | hr
        · rw [hll] at hl; cases hl
        · exact hr
      simp only [hll, hr2]
      rw [Nat.add_comm 1 i]
      simp
  exact ⟨hmain, by rw [hmain]; rfl⟩

/-- Witness for C6: the scenario of the specification, `c = a U nope` with
`nope` undefined, aborts with a ReferenceError naming `nope` on line 2. -/
theorem undefined_ref_aborts_witness :
    1 < (linesOf "a = [(0,0),(1,0),(0,1)]\nc = a U nope").length ∧
    processLines geomModel 64 [] 1
        ((linesOf "a = [(0,0),(1,0),(0,1)]\nc = a U nope").take 1) =
      .ok [(['a'], .poly [(0, 0), (1, 0), (0, 1)])] ∧
    assignMatch (lineStrip ((linesOf "a = [(0,0),(1,0),(0,1)]\nc = a U nope").getD 1 [])) =
      some (['c'], "a U nope".data) ∧
    ("a U nope".data.head? == some '[') = false ∧
    ("a U nope".data.head? == some '(' && "a U nope".data.getLast? == some ')') = false ∧
    opMatch "a U nope".data = some (['a'], 'U', "nope".data) ∧
    (lookupZ [(['a'], .poly [(0, 0), (1, 0), (0, 1)])] ['a'] = none ∨
     lookupZ [(['a'], .poly [(0, 0), (1, 0), (0, 1)])] "nope".data = none) ∧
    (buildZones geomModel 64 "a = [(0,0),(1,0),(0,1)]\nc = a U nope" =
      .error (.refErr
        (if lookupZ [(['a'], .poly [(0, 0), (1, 0), (0, 1)])] ['a'] = none then ['a']
         else "nope".data) 2) ∧
     (buildZones geomModel 64 "a = [(0,0),(1,0),(0,1)]\nc = a U nope").isOk = false) :=
  ⟨by decide, by decide, by decide, by decide, by decide, by decide, Or.inr (by decide),
   undefined_ref_aborts geomModel 64 "a = [(0,0),(1,0),(0,1)]\nc = a U nope" 1
     [(['a'], .poly [(0, 0), (1, 0), (0, 1)])] ['c'] "a U nope".data ['a'] 'U' "nope".data
     (by decide) (by decide) (by decide) (by decide) (by decide) (by decide)
     (Or.inr (by decide))⟩

/-! ## C2: containment is closed-region membership -/

theorem convex_min_max (a b t : ℚ) (h0 : 0 ≤ t) (h1 : t ≤ 1) :
    min a b ≤ a + t * (b - a) ∧ a + t * (b - a) ≤ max a b := by
  rcases le_total a b with h | h
  · rw [min_eq_left h, max_eq_right h]
    constructor <;> nlinarith
  · rw [min_eq_right h, max_eq_left h]
    constructor <;> nlinarith

theorem onSegB_of_onSegP (a b p : ℚ × ℚ) (h : OnSegP a b p) : onSegB a b p = true := by
  obtain ⟨t, h0, h1, hx, hy⟩ := h
  have c1 : (b.1 - a.1) * (p.2 - a.2) = (b.2 - a.2) * (p.1 - a.1) := by
    rw [hx, hy]
    ring
  have c2 := convex_min_max a.1 b.1 t h0 h1
  have c3 := convex_min_max a.2 b.2 t h0 h1
  rw [← hx] at c2
  rw [← hy] at c3
  unfold onSegB
  simp only [Bool.and_eq_true, decide_eq_true_eq]
  exact ⟨⟨⟨⟨c1, c2.1⟩, c2.2⟩, c3.1⟩, c3.2⟩

/-- C2: for a zone stored as a polygon literal, every point that lies strictly
inside the ring or exactly on the ring (in particular every point exactly on a
polygon edge) satisfies `in_zone = true`: membership is closed-region, never
false on the boundary. -/
theorem in_zone_closed_membership (g : Geom) (n : ℕ) (src : String) (T : ZTable)
    (name : List Char) (ring : List (ℚ × ℚ)) (p : ℚ × ℚ)
    (h : buildZones g n src = .ok T)
    (hl : lookupZ T name = some (.poly ring))
    (hp : StrictlyInside ring p ∨ OnRingP ring p) :
    inZoneE T name p = .ok (some true) := by
  unfold inZoneE
  rw [hl]
  have hcov : (onRingB ring p || crossingsOddB ring p) = true := by
    rcases hp with ⟨hin, _⟩ | hb
    · rw [hin, Bool.or_true]
    · obtain ⟨e, he, hseg⟩ := hb
      have h1 : onSegB e.1 e.2 p = true := onSegB_of_onSegP e.1 e.2 p hseg
      have h2 : onRingB ring p = true := by
        unfold onRingB
        rw [List.any_eq_true]
        exact ⟨e, he, h1⟩
      rw [h2, Bool.true_or]
  show Except.ok (some (onRingB ring p || crossingsOddB ring p)) = .ok (some true)
  rw [hcov]

/-- Witness for C2: the unit test square of the source, with the point
`(5, 0)` lying exactly on its bottom edge. -/
theorem in_zone_closed_membership_witness :
    buildZones geomModel 64 "z = [(0,0),(10,0),(10,10),(0,10)]" =
      .ok [(['z'], .poly [(0, 0), (10, 0), (10, 10), (0, 10)])] ∧
    lookupZ [(['z'], .poly [(0, 0), (10, 0), (10, 10), (0, 10)])] ['z'] =
      some (.poly [(0, 0), (10, 0), (10, 10), (0, 10)]) ∧
    (StrictlyInside [(0, 0), (10, 0), (10, 10), (0, 10)] (5, 0) ∨
     OnRingP [(0, 0), (10, 0), (10, 10), (0, 10)] (5, 0)) ∧
    inZoneE [(['z'], .poly [(0, 0), (10, 0), (10, 10), (0, 10)])] ['z'] (5, 0) =
      .ok (some true) :=
  have hb : OnRingP [((0 : ℚ), (0 : ℚ)), (10, 0), (10, 10), (0, 10)] (5, 0) :=
    ⟨((0, 0), (10, 0)), by decide,
     ⟨1 / 2, by norm_num, by norm_num, by norm_num, by norm_num⟩⟩
  ⟨by decide, by decide, Or.inr hb,
   in_zone_closed_membership geomModel 64 "z = [(0,0),(10,0),(10,10),(0,10)]"
     [(['z'], .poly [(0, 0), (10, 0), (10, 10), (0, 10)])] ['z']
     [(0, 0), (10, 0), (10, 10), (0, 10)] (5, 0) (by decide) (by decide) (Or.inr hb)⟩

/-! ## C1: the inclusion–exclusion area identity -/

/-- C1: for any two shapes bound in a successfully built table (with
measurable regions of finite area, as every shape the evaluator produces has),
the areas of the union and intersection produced by the DSL operator map
satisfy `area(A U B) + area(A I B) = area A + area B` — exactly, hence within
any floating-point tolerance. -/
theorem area_inclusion_exclusion (g : Geom) (n : ℕ) (src : String) (T : ZTable)
    (a b : List Char) (A B : Shape)
    (h : buildZones g n src = .ok T)
    (ha : lookupZ T a = some A) (hb : lookupZ T b = some B)
    (hmA : MeasurableSet (region A)) (hmB : MeasurableSet (region B))
    (hfA : MeasureTheory.volume (region A) ≠ ⊤)
    (hfB : MeasureTheory.volume (region B) ≠ ⊤) :
    getArea (applyOp 'U' A B) + getArea (applyOp 'I' A B) = getArea A + getArea B := by
  have hU : region (applyOp 'U' A B) = region A ∪ region B := rfl
  have hI : region (applyOp 'I' A B) = region A ∩ region B := rfl
  unfold getArea
  rw [hU, hI]
  have key : MeasureTheory.volume (region A ∪ region B) +
      MeasureTheory.volume (region A ∩ region B) =
      MeasureTheory.volume (region A) + MeasureTheory.volume (region B) :=
    MeasureTheory.measure_union_add_inter (region A) hmB
  have hUf : MeasureTheory.volume (region A ∪ region B) ≠ ⊤ := by
    have hle := MeasureTheory.measure_union_le (μ := MeasureTheory.volume) (region A) (region B)
    exact (lt_of_le_of_lt hle (ENNReal.add_lt_top.mpr ⟨hfA.lt_top, hfB.lt_top⟩)).ne
  have hIf : MeasureTheory.volume (region A ∩ region B) ≠ ⊤ :=
    ((MeasureTheory.measure_mono Set.inter_subset_left).trans_lt hfA.lt_top).ne
  rw [← ENNReal.toReal_add hUf hIf, ← ENNReal.toReal_add hfA hfB, key]

/-- Witness for C1 at a table with two (empty-polygon) zones, whose regions
are measurable with finite measure. -/
theorem area_inclusion_exclusion_witness :
    buildZones geomModel 64 "a = []\nb = []" =
      .ok [(['a'], .poly []), (['b'], .poly [])] ∧
    lookupZ [(['a'], .poly []), (['b'], .poly [])] ['a'] = some (.poly []) ∧
    lookupZ [(['a'], .poly []), (['b'], .poly [])] ['b'] = some (.poly []) ∧
    MeasurableSet (region (.poly [])) ∧
    MeasureTheory.volume (region (.poly [])) ≠ ⊤ ∧
    getArea (applyOp 'U' (.poly []) (.poly [])) + getArea (applyOp 'I' (.poly []) (.poly [])) =
      getArea (.poly []) + getArea (.poly []) :=
  have hmeas : MeasurableSet (region (Shape.poly [])) := by
    rw [region_poly_nil]
    exact MeasurableSet.empty
  have hfin : MeasureTheory.volume (region (Shape.poly [])) ≠ ⊤ := by
    rw [region_poly_nil]
    simp
  ⟨by decide, by decide, by decide, hmeas, hfin,
   area_inclusion_exclusion geomModel 64 "a = []\nb = []"
     [(['a'], .poly []), (['b'], .poly [])] ['a'] ['b'] (.poly []) (.poly [])
     (by decide) (by decide) (by decide) hmeas hmeas hfin hfin⟩

/-! ## C4: circle polygonization has 4·n vertices -/

theorem ptDist_circle (cx cy r θ : ℝ) (hr : 0 ≤ r) :
    ptDist (cx + r * Real.cos θ, cy + r * Real.sin θ) (cx, cy) = r := by
  have h2 : (cx + r * Real.cos θ - cx) ^ 2 + (cy + r * Real.sin θ - cy) ^ 2 = r ^ 2 := by
    have hs := Real.sin_sq_add_cos_sq θ
    nlinarith [hs]
  show Real.sqrt ((cx + r * Real.cos θ - cx) ^ 2 + (cy + r * Real.sin θ - cy) ^ 2) = r
  rw [h2, Real.sqrt_sq hr]

/-- C4 counterexample: parsing `c = (0,0,1)` with circle-resolution 3 binds a
circle whose polygonized boundary has `4 * 3 = 12` vertices, not 3: the
shapely `buffer` resolution counts segments per quarter circle, so the shape
is not an `n`-sided polygon for the resolution parameter `n`. -/
theorem circle_vertex_count_cex :
    buildZones geomModel 3 "c = (0,0,1)" = .ok [(['c'], .circle 0 0 1 3)] ∧
    (circleRing 0 0 1 3).length = 12 ∧ (circleRing 0 0 1 3).length ≠ 3 := by
  have hlen : (circleRing 0 0 1 3).length = 12 := by
    unfold circleRing
    rw [List.length_map, List.length_range]
  exact ⟨by decide, hlen, by rw [hlen]; omega⟩

/-- C4 (amended): every circle literal `(cx, cy, r)` parsed under
circle-resolution `n` binds the circle shape with positive radius whose
polygonized boundary is a regular `4 * n`-sided polygon: `4 * n` vertices
generated at `4 * n` equally spaced angles, each at distance `r` from the
center `(cx, cy)`. -/
theorem circle_ngon_4n (n : ℕ) (name : List Char) (idx : ℕ) (expr : List Char) (S : Shape)
    (h : parseCircle n name idx expr = .ok S) :
    ∃ cx cy r : ℚ, S = .circle cx cy r n ∧ 0 < r ∧
      (circleRing cx cy r n).length = 4 * n ∧
      ∀ k : ℕ, k < 4 * n →
        ptDist ((circleRing cx cy r n).getD k (0, 0)) ((cx : ℝ), (cy : ℝ)) = (r : ℝ) := by
  unfold parseCircle at h
  cases hle : litEval expr with
  | none => rw [hle] at h; cases h
  | some v =>
    rw [hle] at h
    have h2 : (match circleTriple v with
        | none => Except.error (ZErr.circleShape name idx)
        | some (cx, cy, r) =>
          if qNonpos r = true then Except.error (ZErr.circleRadius name idx)
          else Except.ok (Shape.circle cx cy r n)) = Except.ok S := h
    cases hct : circleTriple v with
    | none => rw [hct] at h2; cases h2
    | some trip =>
      obtain ⟨cx, cy, r⟩ := trip
      rw [hct] at h2
      have h3 : (if qNonpos r = true then Except.error (ZErr.circleRadius name idx)
          else Except.ok (Shape.circle cx cy r n)) = Except.ok S := h2
      by_cases hq : qNonpos r = true
      · rw [if_pos hq] at h3; cases h3
      · rw [if_neg hq] at h3
        cases h3
        have hnum : ¬ r.num ≤ 0 := fun hc => hq (by unfold qNonpos; exact decide_eq_true hc)
        have hrpos : 0 < r := Rat.num_pos.mp (not_le.mp hnum)
        have hr0 : (0 : ℝ) ≤ (r : ℝ) := by exact_mod_cast le_of_lt hrpos
        have hlen : (circleRing cx cy r n).length = 4 * n := by
          unfold circleRing
          rw [List.length_map, List.length_range]
        refine ⟨cx, cy, r, rfl, hrpos, hlen, ?_⟩
        intro k hk
        have hget : (circleRing cx cy r n).getD k (0, 0) =
            ((cx : ℝ) + (r : ℝ) * Real.cos (2 * Real.pi * k / (4 * n)),
             (cy : ℝ) + (r : ℝ) * Real.sin (2 * Real.pi * k / (4 * n))) := by
          rw [List.getD_eq_getElem (circleRing cx cy r n) (0, 0) (by rw [hlen]; exact hk)]
          simp [circleRing]
        rw [hget]
        exact ptDist_circle _ _ _ _ hr0

/-- Witness for C4's amended statement at `(0,0,1)` with resolution 5. -/
theorem circle_ngon_4n_witness :
    parseCircle 5 ['c'] 1 "(0,0,1)".data = .ok (.circle 0 0 1 5) ∧
    (∃ cx cy r : ℚ, Shape.circle 0 0 1 5 = .circle cx cy r 5 ∧ 0 < r ∧
      (circleRing cx cy r 5).length = 4 * 5 ∧
      ∀ k : ℕ, k < 4 * 5 →
        ptDist ((circleRing cx cy r 5).getD k (0, 0)) ((cx : ℝ), (cy : ℝ)) = (r : ℝ)) :=
  ⟨by decide, circle_ngon_4n 5 ['c'] 1 "(0,0,1)".data (.circle 0 0 1 5) (by decide)⟩

/-! ## C10: operator splitting of space-free expressions -/

theorem takeWhile_append_all (l rest : List Char) (hl : l.all wordChar = true) :
    (l ++ rest).takeWhile wordChar = l ++ rest.takeWhile wordChar := by
  induction l with
  | nil => simp
  | cons c cs ih =>
    simp only [List.all_cons, Bool.and_eq_true] at hl
    simp [List.takeWhile_cons, hl.1, ih hl.2]

theorem wordChar_not_space (c : Char) (h : wordChar c = true) : isPySpace c = false := by
  cases hsp : isPySpace c
  · rfl
  · exfalso
    simp only [isPySpace, Bool.or_eq_true, beq_iff_eq] at hsp
    rcases hsp with ((((h1 | h1) | h1) | h1) | h1) | h1 <;> subst h1 <;>
      exact absurd h (by decide)

theorem opChar_not_space (c : Char) (h : opChar c = true) : isPySpace c = false := by
  simp only [opChar, Bool.or_eq_true, beq_iff_eq] at h
  rcases h with ((h1 | h1) | h1) | h1 <;> subst h1 <;> rfl

theorem wordChar_not_op (c : Char) (hw : wordChar c = true)
    (hUI : (c == 'U' || c == 'I') = false) : opChar c = false := by
  cases hop : opChar c
  · rfl
  · exfalso
    simp only [opChar, Bool.or_eq_true, beq_iff_eq] at hop
    rcases hop with ((h1 | h1) | h1) | h1
    · subst h1; simp at hUI
    · subst h1; simp at hUI
    · subst h1; exact absurd hw (by decide)
    · subst h1; exact absurd hw (by decide)

theorem word_beq_false (c ch : Char) (hw : wordChar c = true) (hch : wordChar ch = false) :
    (c == ch) = false := by
  cases hbe : c == ch
  · rfl
  · exfalso
    have hce : c = ch := by simpa using hbe
    rw [hce] at hw
    rw [hw] at hch
    cases hch

theorem dropWhile_space_cons (c : Char) (cs : List Char) (h : isPySpace c = false) :
    (c :: cs).dropWhile isPySpace = c :: cs := by
  simp [List.dropWhile_cons, h]

theorem tryOpSplit_at_split (l : List Char) (o : Char) (r : List Char)
    (ho : opChar o = true) (hrne : r ≠ []) (hr : r.all wordChar = true) :
    tryOpSplit (l ++ o :: r) l.length = some (l, o, r) := by
  obtain ⟨c, r2, rfl⟩ : ∃ c r2, r = c :: r2 := by
    cases r with
    | nil => exact absurd rfl hrne
    | cons c r2 => exact ⟨c, r2, rfl⟩
  have hcw : wordChar c = true := by
    simp only [List.all_cons, Bool.and_eq_true] at hr
    exact hr.1
  unfold tryOpSplit
  rw [List.drop_left, dropWhile_space_cons o (c :: r2) (opChar_not_space o ho)]
  simp [ho, dropWhile_space_cons c r2 (wordChar_not_space c hcw), hr, List.take_left]

theorem opSearch_isSome_of_try (cs : List Char) (k0 : ℕ) (res : List Char × Char × List Char)
    (h1 : 1 ≤ k0) (h : tryOpSplit cs k0 = some res) :
    ∀ K, k0 ≤ K → (opSearch cs K).isSome = true := by
  intro K
  induction K with
  | zero => intro hK; omega
  | succ K ih =>
    intro hK
    unfold opSearch
    cases htry : tryOpSplit cs (K + 1) with
    | some res2 => rfl
    | none =>
      have hne : k0 ≠ K + 1 := by
        intro he
        rw [he] at h
        rw [h] at htry
        cases htry
      exact ih (by omega)

theorem tryOpSplit_eq_none (cs : List Char) (k : ℕ)
    (h : ∀ c, ((cs.drop k).dropWhile isPySpace).head? = some c → opChar c = false) :
    tryOpSplit cs k = none := by
  unfold tryOpSplit
  cases hd : (cs.drop k).dropWhile isPySpace with
  | nil => rfl
  | cons c rest =>
    have hop : opChar c = false := h c (by rw [hd]; rfl)
    simp [hop]

theorem tryOpSplit_fail_ne (a b : List Char)
    (haw : a.all wordChar = true) (hbw : b.all wordChar = true)
    (haUI : a.all (fun c => !(c == 'U' || c == 'I')) = true)
    (hbUI : b.all (fun c => !(c == 'U' || c == 'I')) = true)
    (k : ℕ) (hk : k ≠ a.length) :
    tryOpSplit (a ++ 'U' :: b) k = none := by
  apply tryOpSplit_eq_none
  intro c hc
  have hmem : c ∈ a ∨ c ∈ b := by
    rcases Nat.lt_or_ge k a.length with hlt | hge
    · left
      rw [List.drop_append_of_le_length (le_of_lt hlt),
          List.drop_eq_getElem_cons hlt, List.cons_append] at hc
      have hak : wordChar a[k] = true := by
        rw [List.all_eq_true] at haw
        exact haw _ (List.getElem_mem hlt)
      rw [dropWhile_space_cons _ _ (wordChar_not_space _ hak)] at hc
      have hce : a[k] = c := by simpa using hc
      rw [← hce]
      exact List.getElem_mem hlt
    · right
      have hdrop : (a ++ 'U' :: b).drop k = b.drop (k - a.length - 1) := by
        have h3 : k = a.length + (k - a.length) := by omega
        have h4 : k - a.length = (k - a.length - 1) + 1 := by omega
        conv_lhs => rw [h3, List.drop_append, h4, List.drop_succ_cons]
      rw [hdrop] at hc
      cases hbd : b.drop (k - a.length - 1) with
      | nil =>
        rw [hbd] at hc
        exact Option.noConfusion hc
      | cons c2 rest =>
        rw [hbd] at hc
        have hc2 : c2 ∈ b :=
          List.mem_of_mem_drop (l := b) (n := k - a.length - 1)
            (by rw [hbd]; exact List.mem_cons_self c2 rest)
        have hc2w : wordChar c2 = true := by
          rw [List.all_eq_true] at hbw
          exact hbw _ hc2
        rw [dropWhile_space_cons _ _ (wordChar_not_space _ hc2w)] at hc
        have hce : c2 = c := by simpa using hc
        rw [← hce]
        exact hc2
  have hcw : wordChar c = true := by
    rw [List.all_eq_true] at haw hbw
    rcases hmem with h | h
    · exact haw c h
    · exact hbw c h
  have hcUI : (c == 'U' || c == 'I') = false := by
    rw [List.all_eq_true] at haUI hbUI
    rcases hmem with h | h
    · simpa using haUI c h
    · simpa using hbUI c h
  exact wordChar_not_op c hcw hcUI

theorem opSearch_exact (cs a : List Char) (o : Char) (b : List Char)
    (hane : a ≠ [])
    (hfail : ∀ k, k ≠ a.length → tryOpSplit cs k = none)
    (hsucc : tryOpSplit cs a.length = some (a, o, b)) :
    ∀ K, a.length ≤ K → opSearch cs K = some (a, o, b) := by
  intro K
  induction K with
  | zero =>
    intro hK
    have := List.length_pos.mpr hane
    omega
  | succ K ih =>
    intro hK
    unfold opSearch
    by_cases he : K + 1 = a.length
    · rw [he, hsucc]
    · rw [hfail (K + 1) he]
      exact ih (by omega)

/-- C10: whitespace around the operator is optional and the operation pattern
splits by backtracking.  First part: whenever a space-free expression admits
at least one identifier–operator–identifier split, `op_re` matches (the
expression is treated as a binary operation, never as a plain name).  Second
part: for bound zones `a` and `b` whose names contain no `U`/`I` letters, the
space-free expression `aUb` evaluates to exactly the union of the two zones'
shapes. -/
theorem nospace_op_parse :
    (∀ (cs l : List Char) (o : Char) (r : List Char),
        cs = l ++ o :: r → l ≠ [] → r ≠ [] →
        l.all wordChar = true → r.all wordChar = true → opChar o = true →
        (opMatch cs).isSome = true) ∧
    (∀ (g : Geom) (n : ℕ) (st : ZTable) (idx : ℕ) (name a b : List Char) (A B : Shape),
        a ≠ [] → b ≠ [] →
        a.all wordChar = true → b.all wordChar = true →
        a.all (fun c => !(c == 'U' || c == 'I')) = true →
        b.all (fun c => !(c == 'U' || c == 'I')) = true →
        lookupZ st a = some A → lookupZ st b = some B →
        g.isEmpty (Shape.union A B) = false →
        opMatch (a ++ 'U' :: b) = some (a, 'U', b) ∧
        evalAssign g n st idx name (a ++ 'U' :: b) =
          .ok (updateBind st name (.union A B))) := by
  constructor
  · intro cs l o r hcs hlne hrne hlw hrw ho
    subst hcs
    have htry := tryOpSplit_at_split l o r ho hrne hrw
    have hk1 : 1 ≤ l.length := by
      have := List.length_pos.mpr hlne
      omega
    unfold opMatch
    exact opSearch_isSome_of_try (l ++ o :: r) l.length (l, o, r) hk1 htry _
      (by rw [takeWhile_append_all l _ hlw, List.length_append]; omega)
  · intro g n st idx name a b A B hane hbne haw hbw haUI hbUI hA hB hEmp
    have hopm : opMatch (a ++ 'U' :: b) = some (a, 'U', b) := by
      unfold opMatch
      apply opSearch_exact (a ++ 'U' :: b) a 'U' b hane
        (tryOpSplit_fail_ne a b haw hbw haUI hbUI)
        (tryOpSplit_at_split a 'U' b (by decide) hbne hbw)
      rw [takeWhile_append_all a _ haw, List.length_append]
      omega
    refine ⟨hopm, ?_⟩
    obtain ⟨c0, a2, rfl⟩ : ∃ c0 a2, a = c0 :: a2 := by
      cases a with
      | nil => exact absurd rfl hane
      | cons c0 a2 => exact ⟨c0, a2, rfl⟩
    have hc0w : wordChar c0 = true := by
      simp only [List.all_cons, Bool.and_eq_true] at haw
      exact haw.1
    have hhead : ((c0 :: a2) ++ 'U' :: b).head? = some c0 := by
      rw [List.cons_append]
      rfl
    have hnp : (((c0 :: a2) ++ 'U' :: b).head? == some '[') = false := by
      rw [hhead]
      have hred : (some c0 == some '[') = (c0 == '[') := rfl
      rw [hred]
      exact word_beq_false c0 '[' hc0w (by decide)
    have hnc : (((c0 :: a2) ++ 'U' :: b).head? == some '(' &&
        ((c0 :: a2) ++ 'U' :: b).getLast? == some ')') = false := by
      have hpar : (((c0 :: a2) ++ 'U' :: b).head? == some '(') = false := by
        rw [hhead]
        have hred : (some c0 == some '(') = (c0 == '(') := rfl
        rw [hred]
        exact word_beq_false c0 '(' hc0w (by decide)
      rw [hpar, Bool.false_and]
    simp only [evalAssign, shapeOfExpr, hnp, hnc, Bool.false_eq_true, if_false, hopm, hA, hB]
    simp only [applyOp, beq_self_eq_true, if_true, hEmp, Bool.false_eq_true, if_false]

/-- Witness for C10: `c = aUb` with zones `a` and `b` defined parses as the
binary union of the two zones. -/
theorem nospace_op_parse_witness :
    (opMatch "aUb".data).isSome = true ∧
    opMatch (['a'] ++ 'U' :: ['b']) = some (['a'], 'U', ['b']) ∧
    evalAssign geomModel 64
        [(['a'], .poly [(0, 0), (1, 0), (0, 1)]), (['b'], .poly [(0, 0), (2, 0), (0, 2)])]
        3 ['c'] (['a'] ++ 'U' :: ['b']) =
      .ok (updateBind
        [(['a'], .poly [(0, 0), (1, 0), (0, 1)]), (['b'], .poly [(0, 0), (2, 0), (0, 2)])]
        ['c'] (.union (.poly [(0, 0), (1, 0), (0, 1)]) (.poly [(0, 0), (2, 0), (0, 2)]))) :=
  have hpart2 := nospace_op_parse.2 geomModel 64
    [(['a'], .poly [(0, 0), (1, 0), (0, 1)]), (['b'], .poly [(0, 0), (2, 0), (0, 2)])]
    3 ['c'] ['a'] ['b'] (.poly [(0, 0), (1, 0), (0, 1)]) (.poly [(0, 0), (2, 0), (0, 2)])
    (by decide) (by decide) (by decide) (by decide) (by decide) (by decide)
    (by decide) (by decide) (by decide)
  ⟨nospace_op_parse.1 "aUb".data ['a'] 'U' ['b'] (by decide) (by decide) (by decide)
     (by decide) (by decide) (by decide),
   hpart2.1, hpart2.2⟩
